import Mathlib

set_option maxRecDepth 8000

/-! Shallow embedding of the FrankenStrings engine
    (src/frankenstrings/frankenstrings.py).  Byte strings are modelled as
    `List Nat` (one entry per byte of the Python `bytes` value); the
    external collaborators that the engine consumes (IOC matcher,
    file-type sniffer, XOR brute-force cracker, PE section parser,
    content hash) are passed in as oracle parameters, following their
    interface contracts. -/

/-- Number of distinct byte values in a byte string, Python `len(set(b))`:
    each value is counted at its last occurrence. -/
def uniqCount : List Nat → Nat
  | [] => 0
  | b :: t => if t.contains b then uniqCount t else uniqCount t + 1

/-- Contiguous-substring test, Python `p in l` for `bytes` and `str`. -/
def subIn [BEq α] (p : List α) : List α → Bool
  | [] => p.isPrefixOf []
  | a :: t => p.isPrefixOf (a :: t) || subIn p t

/-- Python `s.startswith(p)` on `str`. -/
def strStarts (p s : String) : Bool := p.data.isPrefixOf s.data

/-- Byte values of an ASCII string literal. -/
def strBytes (s : String) : List Nat := s.data.map Char.toNat

/-- Python `s[0:10]` on `str`. -/
def strTake10 (s : String) : String := String.mk (s.data.take 10)

/-- Value of an ASCII hex digit byte, `none` on any other byte
    (the digit classes accepted by `binascii`). -/
def hexVal? (c : Nat) : Option Nat :=
  if 48 ≤ c ∧ c ≤ 57 then some (c - 48)
  else if 65 ≤ c ∧ c ≤ 70 then some (c - 55)
  else if 97 ≤ c ∧ c ≤ 102 then some (c - 87)
  else none

/-- Lower-case ASCII hex digit byte of a value below 16,
    as produced by `binascii.hexlify`. -/
def hexDigitAsc (n : Nat) : Nat := if n < 10 then 48 + n else 87 + n

/-- Python `binascii.hexlify`: two lower-case hex digit bytes per input byte. -/
def hexlify : List Nat → List Nat
  | [] => []
  | b :: t => hexDigitAsc (b / 16) :: hexDigitAsc (b % 16) :: hexlify t

/-- Python `binascii.unhexlify`: fails (raises) on odd length or on a
    non-hex byte, otherwise packs hex digit pairs into bytes. -/
def unhexlify : List Nat → Option (List Nat)
  | [] => some []
  | [_] => none
  | c1 :: c2 :: t =>
    match hexVal? c1, hexVal? c2, unhexlify t with
    | some v1, some v2, some tl => some ((16 * v1 + v2) :: tl)
    | _, _, _ => none

/-- Value of a base64 alphabet byte, `none` for every byte outside the
    alphabet (`binascii.a2b_base64` skips those). -/
def b64CharVal (c : Nat) : Option Nat :=
  if 65 ≤ c ∧ c ≤ 90 then some (c - 65)
  else if 97 ≤ c ∧ c ≤ 122 then some (c - 71)
  else if 48 ≤ c ∧ c ≤ 57 then some (c + 4)
  else if c = 43 then some 62
  else if c = 47 then some 63
  else none

/-- Base64 alphabet byte of a 6-bit value, as used by `binascii.b2a_base64`. -/
def b64Char (v : Nat) : Nat :=
  if v ≤ 25 then 65 + v
  else if v ≤ 51 then 71 + v
  else if v ≤ 61 then v - 4
  else if v = 62 then 43
  else 47

/-- Three bytes packed from a 24-bit accumulator of four base64 values. -/
def bytes3 (acc : Nat) : List Nat := [acc / 65536, acc / 256 % 256, acc % 256]

/-- Worker for `a2b_base64`: `qp` is the position inside the current
    4-character quad, `acc` the bit accumulator, `pads` the number of
    pad characters seen for the current quad.  Mirrors CPython
    `binascii.a2b_base64` in non-strict mode: bytes outside the alphabet
    are skipped; a pad character at quad position below 2 is skipped; a
    pad completing a quad of 2 or 3 data characters terminates the
    decode (the rest of the input is ignored); input ending in the
    middle of a quad is an error (`Incorrect padding`). -/
def a2bGo : List Nat → Nat → Nat → Nat → Option (List Nat)
  | [], qp, _, _ => if qp = 0 then some [] else none
  | c :: rest, qp, acc, pads =>
    if c = 61 then
      if 2 ≤ qp then
        if 4 ≤ qp + pads + 1 then
          some (if qp = 2 then [acc / 16] else [acc / 1024, acc / 4 % 256])
        else a2bGo rest qp acc (pads + 1)
      else a2bGo rest qp acc pads
    else
      match b64CharVal c with
      | none => a2bGo rest qp acc pads
      | some v =>
        if qp = 3 then
          match a2bGo rest 0 0 0 with
          | some tl => some (bytes3 (acc * 64 + v) ++ tl)
          | none => none
        else a2bGo rest (qp + 1) (acc * 64 + v) 0

/-- Python `binascii.a2b_base64` (non-strict mode), `none` when it raises. -/
def a2b_base64 (s : List Nat) : Option (List Nat) := a2bGo s 0 0 0

/-- Python `binascii.b2a_base64` without the trailing newline: canonical
    base64 with `=` padding. -/
def b2a_base64 : List Nat → List Nat
  | b1 :: b2 :: b3 :: rest =>
    b64Char (b1 / 4) :: b64Char (b1 % 4 * 16 + b2 / 16) ::
      b64Char (b2 % 16 * 4 + b3 / 64) :: b64Char (b3 % 64) :: b2a_base64 rest
  | [b1, b2] =>
    [b64Char (b1 / 4), b64Char (b1 % 4 * 16 + b2 / 16), b64Char (b2 % 16 * 4), 61]
  | [b1] => [b64Char (b1 / 4), b64Char (b1 % 4 * 16), 61, 61]
  | [] => []

theorem hexValOfDigit : ∀ n, n < 16 → hexVal? (hexDigitAsc n) = some n := by decide

/-- Round trip for the ascii-hex codec on byte strings. -/
theorem unhexlify_hexlify (b : List Nat) (hb : ∀ x ∈ b, x < 256) :
    unhexlify (hexlify b) = some b := by
  induction b with
  | nil => rfl
  | cons x t ih =>
    have hx : x < 256 := hb x (by simp)
    have h1 : x / 16 < 16 := by omega
    have h2 : x % 16 < 16 := by omega
    have ht : unhexlify (hexlify t) = some t := ih (fun y hy => hb y (by simp [hy]))
    simp [hexlify, unhexlify, hexValOfDigit _ h1, hexValOfDigit _ h2, ht]
    omega

theorem b64CharValOfChar : ∀ v, v < 64 → b64CharVal (b64Char v) = some v := by decide

theorem b64Char_ne_pad (v : Nat) : b64Char v ≠ 61 := by
  unfold b64Char
  split <;> try omega
  split <;> try omega
  split <;> try omega
  split <;> omega

theorem b64CharVal_pad : b64CharVal 61 = none := by decide

theorem a2bGo_cons_val (c : Nat) (rest : List Nat) (qp acc pads v : Nat)
    (hc : b64CharVal c = some v) (hqp : qp ≠ 3) :
    a2bGo (c :: rest) qp acc pads = a2bGo rest (qp + 1) (acc * 64 + v) 0 := by
  have h61 : c ≠ 61 := by
    intro h; rw [h, b64CharVal_pad] at hc; exact Option.noConfusion hc
  simp [a2bGo, h61, hc, hqp]

theorem a2bGo_cons_quad (c : Nat) (rest : List Nat) (acc pads v : Nat)
    (hc : b64CharVal c = some v) :
    a2bGo (c :: rest) 3 acc pads =
      match a2bGo rest 0 0 0 with
      | some tl => some (bytes3 (acc * 64 + v) ++ tl)
      | none => none := by
  have h61 : c ≠ 61 := by
    intro h; rw [h, b64CharVal_pad] at hc; exact Option.noConfusion hc
  simp [a2bGo, h61, hc]

theorem a2b_b2a_go (n : Nat) : ∀ b : List Nat, b.length ≤ n → (∀ x ∈ b, x < 256) →
    ∀ pads, a2bGo (b2a_base64 b) 0 0 pads = some b := by
  induction n with
  | zero =>
    intro b hlen _ pads
    have : b = [] := List.eq_nil_of_length_eq_zero (Nat.le_zero.mp hlen)
    subst this
    simp [b2a_base64, a2bGo]
  | succ n ih =>
    intro b hlen hb pads
    match b with
    | [] => simp [b2a_base64, a2bGo]
    | [b1] =>
      have h1 : b1 < 256 := hb b1 (by simp)
      rw [b2a_base64]
      rw [a2bGo_cons_val _ _ _ _ _ _ (b64CharValOfChar _ (by omega)) (by omega)]
      rw [a2bGo_cons_val _ _ _ _ _ _ (b64CharValOfChar _ (by omega)) (by omega)]
      simp only [a2bGo]
      norm_num
      omega
    | [b1, b2] =>
      have h1 : b1 < 256 := hb b1 (by simp)
      have h2 : b2 < 256 := hb b2 (by simp)
      rw [b2a_base64]
      rw [a2bGo_cons_val _ _ _ _ _ _ (b64CharValOfChar _ (by omega)) (by omega)]
      rw [a2bGo_cons_val _ _ _ _ _ _ (b64CharValOfChar _ (by omega)) (by omega)]
      rw [a2bGo_cons_val _ _ _ _ _ _ (b64CharValOfChar _ (by omega)) (by omega)]
      simp only [a2bGo]
      norm_num
      constructor
      · omega
      · omega
    | b1 :: b2 :: b3 :: rest =>
      have h1 : b1 < 256 := hb b1 (by simp)
      have h2 : b2 < 256 := hb b2 (by simp)
      have h3 : b3 < 256 := hb b3 (by simp)
      have hrest : ∀ x ∈ rest, x < 256 := fun x hx => hb x (by simp [hx])
      have hlen2 : rest.length ≤ n := by
        simp only [List.length_cons] at hlen; omega
      rw [b2a_base64]
      rw [a2bGo_cons_val _ _ _ _ _ _ (b64CharValOfChar _ (by omega)) (by omega)]
      rw [a2bGo_cons_val _ _ _ _ _ _ (b64CharValOfChar _ (by omega)) (by omega)]
      rw [a2bGo_cons_val _ _ _ _ _ _ (b64CharValOfChar _ (by omega)) (by omega)]
      rw [a2bGo_cons_quad _ _ _ _ _ (b64CharValOfChar _ (by omega))]
      rw [ih rest hlen2 hrest 0]
      simp only [bytes3, List.cons_append, List.nil_append, Option.some.injEq,
        List.cons.injEq, and_true]
      refine ⟨by omega, by omega, by omega⟩

/-- Round trip for the base64 codec on byte strings: decoding a canonical
    encoding recovers the bytes. -/
theorem a2b_b2a (b : List Nat) (hb : ∀ x ∈ b, x < 256) :
    a2b_base64 (b2a_base64 b) = some b :=
  a2b_b2a_go b.length b (Nat.le_refl _) hb 0

/-! Embedded executable carver (`embedded_pe_results` / `pe_dump`).

    The recognizer regex is `(?s)MZ.{32,1024}PE\000\000.+` searched with
    `re.findall` over `request.file_contents[1:]`.  Because the trailing
    `.+` is greedy and last in the pattern, a successful match always
    extends to the end of the searched data, so `findall` yields at most
    one match: the suffix starting at the leftmost position where the
    pattern matches. -/

/-- Does the list start with `PE\000\000` followed by at least one byte
    (the `PE\000\000.+` part of the recognizer)? -/
def peHeadHere : List Nat → Bool
  | 80 :: 69 :: 0 :: 0 :: _ :: _ => true
  | _ => false

/-- Is `PE\000\000` (plus one byte) found at one of the next `fuel`
    positions of the list? -/
def hasPEWithin : Nat → List Nat → Bool
  | 0, _ => false
  | _ + 1, [] => false
  | fuel + 1, b :: t => peHeadHere (b :: t) || hasPEWithin fuel t

/-- Does the executable-header pattern `MZ.{32,1024}PE\000\000.+` match at
    the head of the list?  The gap `k` between `MZ` and `PE` ranges over
    the 993 values 32..1024. -/
def isExeWindow : List Nat → Bool
  | 77 :: 90 :: rest => hasPEWithin 993 (rest.drop 32)
  | _ => false

/-- Leftmost suffix at which the executable-header pattern matches: the
    single window `re.findall(pat_exeheader, data)` can produce. -/
def findExeWindow : List Nat → Option (List Nat)
  | [] => none
  | b :: t => if isExeWindow (b :: t) then some (b :: t) else findExeWindow t

/-- Byte string of the canonical DOS stub message (`pat_exedos`). -/
def dosStub : List Nat := strBytes "This program cannot be run in DOS mode"

/-- Core of `pe_dump`: the written temp file contains `file_bytes`;
    `pedata = mm[offset:]`; the external `pefile.PE` section parse is the
    oracle `parse` (`none` models a parse exception), and a successful
    parse yields the list of `(PointerToRawData, SizeOfRawData)` pairs.
    Returns the bytes selected for extraction, `none` when nothing is
    selected. -/
def pe_dump (parse : List Nat → Option (List (Nat × Nat))) (file_bytes : List Nat)
    (offset : Nat) (fail_on_except : Bool) : Option (List Nat) :=
  let pedata := file_bytes.drop offset
  match parse pedata with
  | some sections =>
    let lsize := sections.foldl (fun acc s => if acc < s.1 + s.2 then s.1 + s.2 else acc) 0
    if 0 < lsize then some (pedata.take lsize)
    else if fail_on_except then none else some pedata
  | none => if fail_on_except then none else some pedata

/-- Artifact written by `pe_dump`: the Python code guards the write with
    `if pe_extract:`, which is false both for `None` and for the empty
    byte string. -/
def pe_dump_artifact (parse : List Nat → Option (List (Nat × Nat)))
    (file_bytes : List Nat) (offset : Nat) (fail_on_except : Bool) : Option (List Nat) :=
  match pe_dump parse file_bytes offset fail_on_except with
  | some l => if l.isEmpty then none else some l
  | none => none

/-- Artifacts extracted by `embedded_pe_results`: the pattern is searched
    in `request.file_contents[1:]`; a matched window must also contain the
    DOS stub string, is written to a temp file, and `pe_dump` is invoked
    on it with `offset=0` and `fail_on_except=True`. -/
def embedded_pe_results (parse : List Nat → Option (List (Nat × Nat)))
    (file_contents : List Nat) : List (List Nat) :=
  match findExeWindow (file_contents.drop 1) with
  | none => []
  | some w =>
    if subIn dosStub w then
      match pe_dump_artifact parse w 0 true with
      | some ex => [ex]
      | none => []
    else []

/-- EXE_HEAD hit handling in `bbcrack_results`: the unmasked matched bytes
    `smatch` are written to a temp file and `pe_dump` is invoked on that
    file with the hit's `offset` (and default `fail_on_except=False`). -/
def bbcrack_exe_head_carve (parse : List Nat → Option (List (Nat × Nat)))
    (smatch : List Nat) (offset : Nat) : Option (List Nat) :=
  pe_dump_artifact parse smatch offset false

/-! Base64 candidate pipeline (`b64` / `base64_results`). -/

/-- FrankenStrings.FILETYPES. -/
def FILETYPES : List String :=
  ["application", "document", "exec", "image", "Microsoft", "text"]

/-- Is the byte an alphanumeric ASCII character?  (The class kept by
    `re.sub(b"[^A-Za-z0-9]+", b"", ...)`.) -/
def isAlnumB (b : Nat) : Bool :=
  (48 ≤ b && b ≤ 57) || (65 ≤ b && b ≤ 90) || (97 ≤ b && b ≤ 122)

/-- File-type test on the sniffer output in `b64`: some FILETYPES entry
    occurs in the MIME string while `octet-stream` does not occur in the
    MIME string, or the entry occurs in the descriptive string (the
    `octet-stream` exclusion is applied only to the MIME string). -/
def b64_filetypes_hit (ftype mag_ftype : String) : Bool :=
  FILETYPES.any fun ft =>
    (subIn ft.data ftype.data && !subIn ("octet-stream").data ftype.data) ||
      subIn ft.data mag_ftype.data

/-- Body of a `b64` result entry: the printable dump, or one of the two
    placeholder messages used when the decoded bytes are extracted to a
    file instead. -/
inductive B64Body where
  | printable (dump : List Nat)
  | fileMsg
  | iocMsg
deriving DecidableEq

/-- External collaborators consumed by the base64 pipeline: the file-type
    sniffer (MIME and descriptive strings; per its contract it never
    raises) and the IOC matcher (`ioc_to_tag` with `taglist=True`,
    returned as a list of (indicator type, value) pairs). -/
structure B64Deps where
  sniff_mime : List Nat → String
  sniff_desc : List Nat → String
  ioc : List Nat → List (String × List Nat)

/-- Output of one `b64` call: the `results` dict (hash key, candidate
    length, 50-byte candidate sample, body, decoded bytes), the `pat`
    tag map, and the files written to scratch and submitted via
    `request.add_extracted` (name, content). -/
structure B64Out where
  results : List (String × Nat × List Nat × B64Body × List Nat)
  pat : List (String × List Nat)
  extracted : List (String × List Nat)
deriving DecidableEq

/-- The `b64` method.  `hash` is the content hash (`hashlib.sha256`
    hex digest) oracle.  A candidate outside the length gates, or one on
    which `binascii.a2b_base64` raises, yields the empty output. -/
def b64 (dep : B64Deps) (hash : List Nat → String) (sample_type : String)
    (b64_string : List Nat) : B64Out :=
  if 16 ≤ b64_string.length ∧ b64_string.length % 4 = 0 then
    match a2b_base64 b64_string with
    | none => ⟨[], [], []⟩
    | some base64data =>
      let sha256hash := hash base64data
      if 200 < base64data.length ∧ base64data.length < 10000000 ∧
          b64_filetypes_hit (dep.sniff_mime base64data) (dep.sniff_desc base64data) = true then
        ⟨[(sha256hash, b64_string.length, b64_string.take 50, B64Body.fileMsg, [])], [],
          [(strTake10 sha256hash ++ "_b64_decoded", base64data)]⟩
      else
        let pat := dep.ioc base64data
        let asc_b64 := base64data.filter fun i => decide (31 < i ∧ i < 127)
        if 0 < asc_b64.length then
          if 0 < pat.length then
            ⟨[(sha256hash, b64_string.length, b64_string.take 50,
                B64Body.printable asc_b64, base64data)], pat, []⟩
          else if strStarts "document/office" sample_type = false ∧
              strStarts "document/pdf" sample_type = false then
            if 12 < uniqCount asc_b64 ∧ 50 < (asc_b64.filter isAlnumB).length then
              ⟨[(sha256hash, b64_string.length, b64_string.take 50,
                  B64Body.printable asc_b64, base64data)], pat, []⟩
            else ⟨[], pat, []⟩
          else ⟨[], pat, []⟩
        else if 0 < pat.length then
          ⟨[(sha256hash, b64_string.length, b64_string.take 50, B64Body.iocMsg, [])], pat,
            [(strTake10 sha256hash ++ "_b64_decoded", base64data)]⟩
        else ⟨[], pat, []⟩
  else ⟨[], [], []⟩

/-- Membership in the `b64_matches` dedup set. -/
def seenHas (seen : List (List Nat)) (c : List Nat) : Bool :=
  seen.any fun y => decide (y = c)

/-- Candidate loop of `base64_results` over the (already separator-
    stripped) matches of the recognizer regex: skip candidates already in
    the `b64_matches` set, add to the set, gate on more than 6 unique
    characters, call `b64`, and keep outputs with nonempty `results`. -/
def base64_results_go (dep : B64Deps) (hash : List Nat → String) (sample_type : String) :
    List (List Nat) → List (List Nat) → List B64Out → List B64Out
  | [], _, acc => acc
  | c :: rest, seen, acc =>
    if seenHas seen c then base64_results_go dep hash sample_type rest seen acc
    else
      let seen2 := c :: seen
      if 6 < uniqCount c then
        let out := b64 dep hash sample_type c
        if 0 < out.results.length then
          base64_results_go dep hash sample_type rest seen2 (acc ++ [out])
        else base64_results_go dep hash sample_type rest seen2 acc
      else base64_results_go dep hash sample_type rest seen2 acc

/-- Candidate loop of `base64_results`, started with the empty dedup set. -/
def base64_results_loop (dep : B64Deps) (hash : List Nat → String) (sample_type : String)
    (cands : List (List Nat)) : List B64Out :=
  base64_results_go dep hash sample_type cands [] []

/-! ASCII-hex candidate pipeline (`unhexlify_ascii` / `hex_results`). -/

/-- Value stored under one tag key by `unhexlify_ascii`: either the value
    set coming from the IOC matcher, or the dict
    `{data: [match, transform]}` built for a bbcrack hit. -/
inductive HexTagVal where
  | iocSet (vals : List (List Nat))
  | xor (data : List Nat) (mtch : List Nat) (transform : String)
deriving DecidableEq

/-- External collaborators consumed by the ascii-hex pipeline: the IOC
    matcher (`ioc_to_tag` with `taglist=True, st_max_length=1000`) and
    the XOR brute-force cracker invoked at its lowest sensitivity
    (`bbcrack(binstr, level='small_string')`), returning
    `(transform, regex, match)` triples in collaborator order. -/
structure HexDeps where
  ioc : List Nat → List (String × HexTagVal)
  bbcrack_small : List Nat → List (String × String × List Nat)

/-- The `unhexlify_ascii` method: returns `(filefound, tags, extracted)`
    where `extracted` lists the files written to scratch and submitted
    via `request.add_extracted` (name, content). -/
def unhexlify_ascii (dep : HexDeps) (hash : List Nat → String) (data0 : List Nat)
    (tag : String) : Bool × List (String × HexTagVal) × List (String × List Nat) :=
  let data := if data0.length % 2 ≠ 0 then data0.dropLast else data0
  match unhexlify data with
  | none => (false, [], [])
  | some binstr =>
    if uniqCount binstr < 7 then (false, [], [])
    else if 500 < binstr.length then
      if uniqCount binstr < 20 then (false, [], [])
      else (true, [], [(strTake10 (hash binstr) ++ "_asciihex_decoded", binstr)])
    else
      let tags := dep.ioc binstr
      if 0 < tags.length then (false, tags, [])
      else if 20 < binstr.length ∧ binstr.length ≤ 128 ∧ strStarts "code/" tag = true then
        match dep.bbcrack_small binstr with
        | [] => (false, [], [])
        | (transform, rgx, m) :: _ =>
          if strStarts "EXE_" rgx then
            (false, [("file.string.blacklisted", HexTagVal.xor data m transform)], [])
          else (false, [(rgx, HexTagVal.xor data m transform)], [])
      else (false, [], [])

/-- Candidate loop of `hex_results` over the (already line-break
    stripped) matches of the hex recognizer: accumulates whether any
    file was extracted and the nonempty tag dicts, in candidate order. -/
def hex_results_loop (dep : HexDeps) (hash : List Nat → String) (tag : String)
    (cands : List (List Nat)) : Bool × List (List (String × HexTagVal)) :=
  cands.foldl
    (fun acc c =>
      let r := unhexlify_ascii dep hash c tag
      (acc.1 || r.1, if 0 < r.2.1.length then acc.2 ++ [r.2.1] else acc.2))
    (false, [])

/-! Multi-radix hex-unicode decoder
    (`decode_bu` / `unicode_longest_string` / `decode_encoded_udata`). -/

/-- Python `max(lisdata, key=len)` for a nonempty list: the first element
    of maximal length.  (On the empty list Python raises; the callers in
    `decode_encoded_udata` guard with `len(...) > 0`.) -/
def py_max_by_len : List (List Nat) → List Nat
  | [] => []
  | x :: xs => xs.foldl (fun acc y => if acc.length < y.length then y else acc) x

/-- The `unicode_longest_string` method. -/
def unicode_longest_string (lisdata : List (List Nat)) : List Nat :=
  let maxstr := (py_max_by_len lisdata).length
  if lisdata.all fun i => decide (i.length = maxstr) then
    lisdata.foldl (fun a i => a ++ i) []
  else if 50 < maxstr then py_max_by_len lisdata
  else []

/-- Python `binascii.a2b_hex` of a two-character slice as taken by
    `decode_bu` (on shorter slices `decode_bu` only ever sees the empty
    slice, for which `a2b_hex` returns the empty byte string). -/
def a2b_hex_pair : List Nat → List Nat
  | [c1, c2] =>
    match hexVal? c1, hexVal? c2 with
    | some v1, some v2 => [16 * v1 + v2]
    | _, _ => []
  | _ => []

/-- Python `binascii.a2b_hex(data[i:i+2])`. -/
def sliceHex (data : List Nat) (i : Nat) : List Nat := a2b_hex_pair ((data.drop i).take 2)

/-- Worker for `decode_bu`; one step per iteration of the Python `while`
    loop, with fuel bounded by the input length. -/
def decode_bu_go (size : Nat) : Nat → List Nat → List Nat
  | 0, _ => []
  | fuel + 1, data =>
    if data.isEmpty then []
    else
      (if size = 2 then sliceHex data 2
       else if size = 4 then sliceHex data 4 ++ sliceHex data 2
       else if size = 8 then
         sliceHex data 8 ++ sliceHex data 6 ++ sliceHex data 4 ++ sliceHex data 2
       else if size = 16 then
         sliceHex data 16 ++ sliceHex data 14 ++ sliceHex data 12 ++ sliceHex data 10 ++
           sliceHex data 8 ++ sliceHex data 6 ++ sliceHex data 4 ++ sliceHex data 2
       else []) ++
        decode_bu_go size fuel
          (data.drop
            (if size = 2 then 4
             else if size = 4 then 6
             else if size = 8 then 10
             else if size = 16 then 18
             else data.length))

/-- The `decode_bu` method: per-word byte-reversed hex decoding, `size`
    hex digits per word, each word preceded by a 2-byte marker. -/
def decode_bu (data : List Nat) (size : Nat) : List Nat :=
  decode_bu_go size data.length data

/-- One unit `marker ++ [A-Fa-f0-9]{k}` at the head of the list: returns
    the remainder after the unit. -/
def matchUnit (marker : List Nat) (k : Nat) (l : List Nat) : Option (List Nat) :=
  if marker.isPrefixOf l then
    let r := l.drop marker.length
    if k ≤ r.length ∧ (r.take k).all (fun c => (hexVal? c).isSome) then some (r.drop k)
    else none
  else none

/-- Number of bytes consumed by the greedy repetition of units at the
    head of the list (the `(?:marker hex{k})+` part of the regexes in
    `decode_encoded_udata`). -/
def munchUnits (marker : List Nat) (k : Nat) : Nat → List Nat → Nat
  | 0, _ => 0
  | fuel + 1, l =>
    match matchUnit marker k l with
    | none => 0
    | some rest => (marker.length + k) + munchUnits marker k fuel rest

/-- Python `re.findall` for the pattern `(?:marker hex{k})+`: leftmost
    non-overlapping maximal runs, scanning position by position. -/
def findRuns (marker : List Nat) (k : Nat) : Nat → List Nat → List (List Nat)
  | 0, _ => []
  | _ + 1, [] => []
  | fuel + 1, b :: t =>
    let n := munchUnits marker k (fuel + 1) (b :: t)
    if n = 0 then findRuns marker k fuel t
    else (b :: t).take n :: findRuns marker k fuel ((b :: t).drop n)

/-- The `decode_encoded_udata` method, for one encoding marker.  `hash`
    is the `hashlib.sha256` hex-digest oracle.  Returns the pair of the
    `shalist` (hashes of runs persisted as extracted files) and the
    `decoded_res` list returned inline.  The second component of each
    inline 4-tuple is the Python expression `len(decoded)` where
    `decoded` is the 2-tuple `(decoded bytes, 200-byte encoded sample)`,
    so its value is the constant 2. -/
def decode_encoded_udata (hash : List Nat → String) (encoding : List Nat)
    (data : List Nat) : List String × List (String × Nat × List Nat × List Nat) :=
  let tryWordSize : Nat → List (List Nat × List Nat) := fun k =>
    let runs := findRuns encoding k data.length data
    if 0 < runs.length then
      let lstr := unicode_longest_string runs
      if 50 < lstr.length then [(decode_bu lstr k, lstr.take 200)] else []
    else []
  let decoded_list := tryWordSize 16 ++ tryWordSize 8 ++ tryWordSize 4 ++ tryWordSize 2
  let filtered_list := decoded_list.filter fun x => decide (30 < x.1.length)
  filtered_list.foldl
    (fun acc decoded =>
      if 500 ≤ decoded.1.length then
        if 20 < uniqCount decoded.1 then (acc.1 ++ [hash decoded.1], acc.2) else acc
      else
        if 6 < uniqCount decoded.1 then
          (acc.1, acc.2 ++ [(hash decoded.1, 2, decoded.2, decoded.1)])
        else acc)
    ([], [])

/-! Artifact store. -/

/-- Modelled from the spec: the artifact store collaborator behind
    `request.add_extracted` is not part of this repository; its §6
    contract is `put(bytes) → content_hash`, idempotent on identical
    bytes.  The store is keyed by the content hash of the stored bytes
    and a put whose key is already present is a no-op. -/
def storePut (hash : List Nat → String) (store : List (String × List Nat))
    (content : List Nat) : List (String × List Nat) :=
  if store.any fun e => decide (e.1 = hash content) then store
  else store ++ [(hash content, content)]

/-! Shared lemmas. -/

theorem subIn_iff [BEq α] [LawfulBEq α] (p l : List α) :
    subIn p l = true ↔ List.IsInfix p l := by
  induction l with
  | nil =>
    rw [subIn, List.isPrefixOf_iff_prefix, List.infix_nil, List.prefix_nil]
  | cons a t ih =>
    rw [subIn, Bool.or_eq_true, List.isPrefixOf_iff_prefix, ih, List.infix_cons_iff]

theorem subIn_false_iff [BEq α] [LawfulBEq α] (p l : List α) :
    subIn p l = false ↔ ¬ List.IsInfix p l := by
  rw [← subIn_iff]
  cases subIn p l <;> simp

theorem foldl_append_eq_flatten (l : List (List Nat)) :
    ∀ a : List Nat, l.foldl (fun a i => a ++ i) a = a ++ l.flatten := by
  induction l with
  | nil => intro a; simp
  | cons x xs ih => intro a; simp [List.foldl_cons, ih (a ++ x)]

theorem foldl_len_max_mem (xs : List (List Nat)) : ∀ x : List Nat,
    xs.foldl (fun acc y => if acc.length < y.length then y else acc) x = x ∨
      xs.foldl (fun acc y => if acc.length < y.length then y else acc) x ∈ xs := by
  induction xs with
  | nil => intro x; left; rfl
  | cons y ys ih =>
    intro x
    rw [List.foldl_cons]
    rcases ih (if x.length < y.length then y else x) with h | h
    · rw [h]
      split
      · right; exact List.mem_cons_self _ _
      · left; rfl
    · right; exact List.mem_cons_of_mem _ h

theorem foldl_len_max_ge (xs : List (List Nat)) : ∀ x z : List Nat, (z = x ∨ z ∈ xs) →
    z.length ≤
      (xs.foldl (fun acc y => if acc.length < y.length then y else acc) x).length := by
  induction xs with
  | nil =>
    intro x z hz
    rcases hz with h | h
    · subst h; exact Nat.le_refl _
    · exact absurd h (List.not_mem_nil z)
  | cons y ys ih =>
    intro x z hz
    rw [List.foldl_cons]
    rcases hz with h | h
    · subst h
      refine Nat.le_trans ?_ (ih _ _ (Or.inl rfl))
      split <;> omega
    · rcases List.mem_cons.mp h with h | h
      · subst h
        refine Nat.le_trans ?_ (ih _ _ (Or.inl rfl))
        split <;> omega
      · exact ih _ _ (Or.inr h)

/-- C5: for a nonempty candidate-run list of one word size,
    `unicode_longest_string` returns the concatenation of all runs in
    discovery order when every run has the maximal (hence the same)
    length; otherwise a longest run when the maximal length exceeds 50;
    otherwise the empty string. -/
theorem c5_representative_selection (l : List (List Nat)) (hne : l ≠ []) :
    ((l.all fun i => decide (i.length = (py_max_by_len l).length)) = true →
        unicode_longest_string l = l.flatten) ∧
    ((l.all fun i => decide (i.length = (py_max_by_len l).length)) = false →
      50 < (py_max_by_len l).length →
        unicode_longest_string l ∈ l ∧
          ∀ y ∈ l, y.length ≤ (unicode_longest_string l).length) ∧
    ((l.all fun i => decide (i.length = (py_max_by_len l).length)) = false →
      (py_max_by_len l).length ≤ 50 → unicode_longest_string l = []) := by
  refine ⟨fun hall => ?_, fun hall h50 => ?_, fun hall h50 => ?_⟩
  · rw [unicode_longest_string, if_pos hall, foldl_append_eq_flatten, List.nil_append]
  · have hres : unicode_longest_string l = py_max_by_len l := by
      rw [unicode_longest_string, hall]
      simp only [Bool.false_eq_true, if_false]
      rw [if_pos h50]
    rw [hres]
    match l, hne with
    | x :: xs, _ =>
      constructor
      · rw [py_max_by_len]
        rcases foldl_len_max_mem xs x with h | h
        · rw [h]; exact List.mem_cons_self _ _
        · exact List.mem_cons_of_mem _ h
      · intro y hy
        rw [py_max_by_len]
        rcases List.mem_cons.mp hy with h | h
        · exact foldl_len_max_ge xs x y (Or.inl h)
        · exact foldl_len_max_ge xs x y (Or.inr h)
  · rw [unicode_longest_string, hall]
    simp only [Bool.false_eq_true, if_false]
    rw [if_neg (by omega)]

/-- Witness for C5 at a concrete two-run list with distinct lengths, the
    longest exceeding 50 bytes. -/
theorem c5_representative_selection_witness :
    unicode_longest_string [List.replicate 60 9, List.replicate 10 3] ∈
        [List.replicate 60 9, List.replicate 10 3] ∧
      ∀ y ∈ [List.replicate 60 9, List.replicate 10 3],
        y.length ≤ (unicode_longest_string [List.replicate 60 9, List.replicate 10 3]).length :=
  (c5_representative_selection [List.replicate 60 9, List.replicate 10 3]
      (by decide)).2.1 (by decide) (by decide)

theorem findExeWindow_eq_none (l : List Nat)
    (h : ∀ i, isExeWindow (l.drop i) = false) : findExeWindow l = none := by
  induction l with
  | nil => rfl
  | cons b t ih =>
    have h0 := h 0
    rw [List.drop_zero] at h0
    rw [findExeWindow, h0]
    simp only [Bool.false_eq_true, if_false]
    exact ih fun i => by
      have hi := h (i + 1)
      rwa [List.drop_succ_cons] at hi

/-- C10: the embedded-executable scan searches `file_contents[1:]`, so a
    sample whose only executable-signature window begins at byte 0
    produces no artifact, for every behaviour of the external section
    parser. -/
theorem c10_scan_starts_at_offset_one (parse : List Nat → Option (List (Nat × Nat)))
    (d : List Nat) (_h0 : isExeWindow d = true)
    (hw : ∀ i, i ≤ d.length → 0 < i → isExeWindow (d.drop i) = false) :
    embedded_pe_results parse d = [] := by
  have hall : ∀ i, isExeWindow ((d.drop 1).drop i) = false := by
    intro i
    rw [List.drop_drop]
    by_cases hi : 1 + i ≤ d.length
    · exact hw (1 + i) hi (by omega)
    · rw [List.drop_eq_nil_of_le (by omega)]
      rfl
  rw [embedded_pe_results, findExeWindow_eq_none _ hall]

/-- Witness for C10: a 39-byte sample which is itself an executable
    window at offset 0 and has no window elsewhere. -/
theorem c10_scan_starts_at_offset_one_witness :
    isExeWindow ([77, 90] ++ List.replicate 32 0 ++ [80, 69, 0, 0, 65]) = true ∧
      embedded_pe_results (fun _ => none)
        ([77, 90] ++ List.replicate 32 0 ++ [80, 69, 0, 0, 65]) = [] :=
  ⟨by decide,
    c10_scan_starts_at_offset_one (fun _ => none) _ (by decide) (by decide)⟩

/-- The C1 sample: `b"MZ" + b"\x00"*40 + b"PE\x00\x00"` followed by the
    DOS-stub string and 1000 `A` bytes. -/
def c1Sample : List Nat :=
  [77, 90] ++ List.replicate 40 0 ++ [80, 69, 0, 0] ++ dosStub ++ List.replicate 1000 65

/-- C1 counterexample: on the C1 sample the embedded-executable carver of
    `embedded_pe_results` emits no artifact at all (the scan over
    `file_contents[1:]` never sees the `MZ` at offset 0), so it does not
    emit exactly one artifact. -/
theorem c1_counterexample_no_artifact :
    embedded_pe_results (fun _ => none) c1Sample = [] ∧
      (embedded_pe_results (fun _ => none) c1Sample).length ≠ 1 := by
  have h : embedded_pe_results (fun _ => none) c1Sample = [] := by decide
  exact ⟨h, by rw [h]; decide⟩

/-- C1 amended: for the C1 sample the carver emits zero artifacts,
    whatever the external section parser would answer: the scan starts at
    byte offset 1 of the sample, so the window beginning at byte 0 is
    never matched (and this call site passes `fail_on_except=True`, so no
    lenient fallback could apply anyway). -/
theorem c1_amended_zero_artifacts (parse : List Nat → Option (List (Nat × Nat))) :
    embedded_pe_results parse c1Sample = [] := by
  have hnone : findExeWindow (c1Sample.drop 1) = none := by decide
  rw [embedded_pe_results, hnone]

/-- Two ASCII hex digit bytes of a byte value (lower case). -/
def hexAscPair (n : Nat) : List Nat := [hexDigitAsc (n / 16), hexDigitAsc (n % 16)]

/-- C2 failing input: the `0x`-marked encoding of the 32 distinct bytes
    65..96, one `0x` marker plus two hex digits per byte. -/
def c2data : List Nat :=
  (List.range 32).foldr (fun i acc => [48, 120] ++ hexAscPair (65 + i) ++ acc) []

/-- Decoded content of the C2 failing input. -/
def c2content : List Nat := (List.range 32).map (65 + ·)

/-- C2: on the failing input the single inline result of
    `decode_encoded_udata` carries 2 as its second component — the
    Python expression `len(decoded)` measures the 2-tuple
    `(content, sample)` instead of the decoded content — while the
    decoded content has length 32. -/
theorem c2_inline_length_is_tuple_arity :
    decode_encoded_udata (fun _ => "h") [48, 120] c2data =
        ([], [("h", 2, c2data.take 200, c2content)]) ∧
      c2content.length = 32 := by
  exact ⟨by decide, by decide⟩

/-- A concrete unmasked bbcrack hit buffer: an `MZ` header followed by
    ten more bytes. -/
def c4smatch : List Nat := [77, 90, 144, 0, 3, 0, 0, 0, 4, 0, 0, 0]

/-- C4: for an EXE_HEAD bbcrack hit, `bbcrack_results` carves the scratch
    buffer holding the unmasked bytes at the hit's original sample
    offset, not at offset 0: with offset 5 the extracted bytes are the
    buffer minus its first five bytes, while carving at offset 0 (what
    the claim and `pe_dump`'s docstring describe) would extract the whole
    buffer. -/
theorem c4_carve_uses_hit_offset :
    bbcrack_exe_head_carve (fun _ => none) c4smatch 5 = some (c4smatch.drop 5) ∧
      c4smatch.drop 5 ≠ c4smatch ∧
      bbcrack_exe_head_carve (fun _ => none) c4smatch 0 = some c4smatch := by
  exact ⟨by decide, by decide, by decide⟩

/-- C6 counterexample inputs: a base64 candidate with non-canonical
    padding bits, and an upper-case ascii-hex candidate. -/
def c6b64 : List Nat := strBytes "ABCDEFGHIJKLMB=="

/-- Upper-case ascii-hex candidate of 16 hex digit pairs. -/
def c6hex : List Nat := strBytes "0A0B0C0D0E0F1A2B0A0B0C0D0E0F1A2B"

/-- C6 counterexample: both candidates pass every acceptance gate of
    their pipelines, yet re-encoding the decoded bytes does not recover
    the candidate (the base64 candidate has non-zero discarded padding
    bits, and hexlify produces lower-case digits for the upper-case hex
    candidate). -/
theorem c6_counterexample_roundtrip_fails :
    16 ≤ c6b64.length ∧ c6b64.length % 4 = 0 ∧ 6 < uniqCount c6b64 ∧
      (a2b_base64 c6b64).isSome = true ∧
      b2a_base64 ((a2b_base64 c6b64).getD []) ≠ c6b64 ∧
      c6hex.length % 2 = 0 ∧ (unhexlify c6hex).isSome = true ∧
      7 ≤ uniqCount ((unhexlify c6hex).getD []) ∧
      ((unhexlify c6hex).getD []).length ≤ 500 ∧
      hexlify ((unhexlify c6hex).getD []) ≠ c6hex := by decide

/-- C6 amended: the round trip holds for canonical candidate texts, i.e.
    those in the image of the inverse transform: decoding the encoding of
    any byte string recovers the bytes, and therefore re-encoding the
    decode of such a candidate recovers the candidate, for both the
    base64 and the ascii-hex codec. -/
theorem c6_amended_roundtrip_canonical (b : List Nat) (hb : ∀ x ∈ b, x < 256) :
    a2b_base64 (b2a_base64 b) = some b ∧
      unhexlify (hexlify b) = some b ∧
      b2a_base64 ((a2b_base64 (b2a_base64 b)).getD []) = b2a_base64 b ∧
      hexlify ((unhexlify (hexlify b)).getD []) = hexlify b := by
  have h1 := a2b_b2a b hb
  have h2 := unhexlify_hexlify b hb
  refine ⟨h1, h2, ?_, ?_⟩ <;> simp [h1, h2]

/-- Witness for the amended C6 at a concrete byte string. -/
theorem c6_amended_roundtrip_canonical_witness :
    a2b_base64 (b2a_base64 [0, 77, 255]) = some [0, 77, 255] ∧
      unhexlify (hexlify [0, 77, 255]) = some [0, 77, 255] ∧
      b2a_base64 ((a2b_base64 (b2a_base64 [0, 77, 255])).getD []) = b2a_base64 [0, 77, 255] ∧
      hexlify ((unhexlify (hexlify [0, 77, 255])).getD []) = hexlify [0, 77, 255] :=
  c6_amended_roundtrip_canonical [0, 77, 255] (by decide)

theorem b64_filetypes_hit_iff (ftype mag_ftype : String) :
    b64_filetypes_hit ftype mag_ftype = true ↔
      ∃ ft ∈ FILETYPES,
        (List.IsInfix ft.data ftype.data ∧
            ¬ List.IsInfix ("octet-stream").data ftype.data) ∨
          List.IsInfix ft.data mag_ftype.data := by
  simp only [b64_filetypes_hit, List.any_eq_true, Bool.or_eq_true, Bool.and_eq_true,
    Bool.not_eq_true', subIn_iff, subIn_false_iff]

/-- C7 amended: a decoded base64 candidate is persisted as a
    possible-file artifact (and reported with the placeholder body,
    skipping further scanning) exactly when its decoded length lies
    strictly between 200 and 10000000 and some interesting category
    either occurs in the sniffer's MIME string with `octet-stream` not
    occurring in the MIME string, or occurs in the sniffer's descriptive
    string — the `octet-stream` exclusion applies only to the MIME
    string. -/
theorem c7_amended_persist_iff (dep : B64Deps) (hash : List Nat → String)
    (sample_type : String) (s d : List Nat)
    (h16 : 16 ≤ s.length) (h4 : s.length % 4 = 0) (hdec : a2b_base64 s = some d) :
    (B64Body.fileMsg ∈ (b64 dep hash sample_type s).results.map fun r => r.2.2.2.1) ↔
      (200 < d.length ∧ d.length < 10000000 ∧
        ∃ ft ∈ FILETYPES,
          (List.IsInfix ft.data (dep.sniff_mime d).data ∧
              ¬ List.IsInfix ("octet-stream").data (dep.sniff_mime d).data) ∨
            List.IsInfix ft.data (dep.sniff_desc d).data) := by
  have hhit := b64_filetypes_hit_iff (dep.sniff_mime d) (dep.sniff_desc d)
  simp only [b64, hdec, if_pos (And.intro h16 h4)]
  by_cases hpc : 200 < d.length ∧ d.length < 10000000 ∧
      b64_filetypes_hit (dep.sniff_mime d) (dep.sniff_desc d) = true
  · rw [if_pos hpc]
    simp only [List.map_cons, List.map_nil, List.mem_singleton]
    exact ⟨fun _ => ⟨hpc.1, hpc.2.1, hhit.mp hpc.2.2⟩, fun _ => trivial⟩
  · rw [if_neg hpc]
    have hrhs : ¬ (200 < d.length ∧ d.length < 10000000 ∧
        ∃ ft ∈ FILETYPES,
          (List.IsInfix ft.data (dep.sniff_mime d).data ∧
              ¬ List.IsInfix ("octet-stream").data (dep.sniff_mime d).data) ∨
            List.IsInfix ft.data (dep.sniff_desc d).data) := by
      intro hx
      exact hpc ⟨hx.1, hx.2.1, hhit.mpr hx.2.2⟩
    simp only [hrhs, iff_false]
    intro hmem
    revert hmem
    split
    · split
      · simp
      · split
        · split
          · simp
          · simp
        · simp
    · split
      · simp
      · simp

/-- Sniffer oracle for the C7 counterexample: the MIME string is the
    generic `application/octet-stream`, the descriptive string reports
    text. -/
def c7dep : B64Deps :=
  ⟨fun _ => "application/octet-stream", fun _ => "ASCII text", fun _ => []⟩

/-- Decoded bytes of the C7 candidates: 250 bytes over 25 values. -/
def c7d : List Nat := (List.range 250).map (fun i => i % 25)

/-- C7 candidate: the canonical base64 encoding of `c7d`. -/
def c7s : List Nat := b2a_base64 c7d

/-- C7 counterexample: the sniffer reports a generic octet-stream MIME
    type, yet the candidate is still persisted as a possible-file
    artifact, because the code's octet-stream exclusion is not applied to
    the descriptive string; the claim's condition (interesting category
    reported and no octet-stream reported) is false here. -/
theorem c7_counterexample_octet_mime_persisted :
    (B64Body.fileMsg ∈ (b64 c7dep (fun _ => "h") "text/plain" c7s).results.map
        fun r => r.2.2.2.1) ∧
      ¬ (200 < c7d.length ∧ c7d.length < 10000000 ∧
          (∃ ft ∈ FILETYPES,
            List.IsInfix ft.data ("application/octet-stream").data ∨
              List.IsInfix ft.data ("ASCII text").data) ∧
          ¬ List.IsInfix ("octet-stream").data ("application/octet-stream").data ∧
          ¬ List.IsInfix ("octet-stream").data ("ASCII text").data) := by
  constructor
  · decide
  · intro h
    exact h.2.2.2.1 (by decide)

/-- Sniffer oracle for the C7 witness: an interesting MIME string with no
    octet-stream. -/
def c7depW : B64Deps := ⟨fun _ => "application/x-thing", fun _ => "data", fun _ => []⟩

/-- Witness for the amended C7 at a concrete candidate and sniffer. -/
theorem c7_amended_persist_iff_witness :
    (B64Body.fileMsg ∈ (b64 c7depW (fun _ => "h") "text/plain" c7s).results.map
        fun r => r.2.2.2.1) ↔
      (200 < c7d.length ∧ c7d.length < 10000000 ∧
        ∃ ft ∈ FILETYPES,
          (List.IsInfix ft.data (c7depW.sniff_mime c7d).data ∧
              ¬ List.IsInfix ("octet-stream").data (c7depW.sniff_mime c7d).data) ∨
            List.IsInfix ft.data (c7depW.sniff_desc c7d).data) :=
  c7_amended_persist_iff c7depW (fun _ => "h") "text/plain" c7s c7d (by decide) (by decide)
    (by decide)

/-- C8: when the IOC matcher found nothing, the decoded length lies in
    (20, 128], and the declared sample type begins with the code
    classification, `unhexlify_ascii` consults the XOR collaborator at
    its lowest sensitivity (the `bbcrack_small` oracle) and tags at most
    the first hit of the returned sequence: a hit whose signature name
    starts with `EXE_` under `file.string.blacklisted`, any other hit
    under its own signature name; later hits are ignored. -/
theorem c8_xor_fallback_first_hit_only (dep : HexDeps) (hash : List Nat → String)
    (data : List Nat) (tag : String) (binstr : List Nat)
    (hdec : unhexlify (if data.length % 2 ≠ 0 then data.dropLast else data) = some binstr)
    (huniq : 7 ≤ uniqCount binstr)
    (hlen : 20 < binstr.length ∧ binstr.length ≤ 128)
    (hioc : dep.ioc binstr = [])
    (hcode : strStarts "code/" tag = true) :
    unhexlify_ascii dep hash data tag =
      (false,
        (match dep.bbcrack_small binstr with
          | [] => []
          | (transform, rgx, m) :: _ =>
            [(if strStarts "EXE_" rgx then "file.string.blacklisted" else rgx,
              HexTagVal.xor (if data.length % 2 ≠ 0 then data.dropLast else data)
                m transform)]),
        []) := by
  simp only [unhexlify_ascii, hdec]
  rw [if_neg (by omega : ¬ uniqCount binstr < 7)]
  rw [if_neg (by omega : ¬ 500 < binstr.length)]
  rw [hioc]
  simp only [List.length_nil, Nat.lt_irrefl, if_false]
  rw [if_pos ⟨hlen.1, hlen.2, hcode⟩]
  match hbb : dep.bbcrack_small binstr with
  | [] => rfl
  | (transform, rgx, m) :: rest =>
    by_cases hexe : strStarts "EXE_" rgx = true
    · simp [hexe]
    · simp only [Bool.not_eq_true] at hexe
      simp [hexe]

/-- Oracles for the C8 witness: the IOC matcher finds nothing; the XOR
    collaborator returns two hits, the first with signature `EXE_HEAD`. -/
def c8dep : HexDeps :=
  ⟨fun _ => [], fun _ => [("t1", "EXE_HEAD", [5]), ("t2", "NET_FULL_URI", [6])]⟩

/-- The C8 witness candidate: the hex encoding of the 22 bytes 0..21. -/
def c8data : List Nat := hexlify ((List.range 22).map fun i => i)

/-- Witness for C8: only the first hit is tagged, under the
    blacklisted-string type because its signature starts with `EXE_`;
    the second hit is ignored. -/
theorem c8_xor_fallback_first_hit_only_witness :
    unhexlify_ascii c8dep (fun _ => "h") c8data "code/vbs" =
      (false, [("file.string.blacklisted", HexTagVal.xor c8data [5] "t1")], []) := by
  have h := c8_xor_fallback_first_hit_only c8dep (fun _ => "h") c8data "code/vbs"
    ((List.range 22).map fun i => i) (by decide) (by decide) (by decide) (by decide)
    (by decide)
  exact h.trans (by decide)

theorem seenHas_cons (x : List Nat) (s : List (List Nat)) (c : List Nat) :
    seenHas (x :: s) c = (decide (x = c) || seenHas s c) := by
  simp [seenHas, List.any_cons]

theorem base64_results_go_seen_equiv (dep : B64Deps) (hash : List Nat → String)
    (st : String) (bad : List Nat) (hbad : (b64 dep hash st bad).results = []) :
    ∀ (cands seen1 seen2 : List (List Nat)) (acc : List B64Out),
      (∀ c, seenHas seen1 c = true ↔ (c = bad ∨ seenHas seen2 c = true)) →
      base64_results_go dep hash st cands seen1 acc =
        base64_results_go dep hash st cands seen2 acc := by
  intro cands
  induction cands with
  | nil => intro seen1 seen2 acc _; rfl
  | cons c rest ih =>
    intro seen1 seen2 acc hmem
    simp only [base64_results_go]
    by_cases hceq : c = bad
    · subst hceq
      have h1 : seenHas seen1 c = true := (hmem c).mpr (Or.inl rfl)
      rw [h1]
      simp only [if_true]
      by_cases h2 : seenHas seen2 c = true
      · rw [h2]
        simp only [if_true]
        exact ih seen1 seen2 acc hmem
      · rw [Bool.not_eq_true] at h2
        rw [h2]
        simp only [Bool.false_eq_true, if_false]
        have hmem2 : ∀ x, seenHas seen1 x = true ↔
            (x = c ∨ seenHas (c :: seen2) x = true) := by
          intro x
          rw [hmem x, seenHas_cons]
          simp only [Bool.or_eq_true, decide_eq_true_eq]
          constructor
          · rintro (h | h)
            · exact Or.inl h
            · exact Or.inr (Or.inr h)
          · rintro (h | h | h)
            · exact Or.inl h
            · exact Or.inl h.symm
            · exact Or.inr h
        by_cases huniq : 6 < uniqCount c
        · rw [if_pos huniq, hbad]
          simp only [List.length_nil, Nat.lt_irrefl, if_false]
          exact ih seen1 (c :: seen2) acc hmem2
        · rw [if_neg huniq]
          exact ih seen1 (c :: seen2) acc hmem2
    · have hcc : seenHas seen1 c = true ↔ seenHas seen2 c = true := by
        rw [hmem c]
        simp [hceq]
      have hmem2 : ∀ x, seenHas (c :: seen1) x = true ↔
          (x = bad ∨ seenHas (c :: seen2) x = true) := by
        intro x
        rw [seenHas_cons, seenHas_cons]
        simp only [Bool.or_eq_true, decide_eq_true_eq]
        rw [hmem x]
        constructor
        · rintro (h | h | h)
          · exact Or.inr (Or.inl h)
          · exact Or.inl h
          · exact Or.inr (Or.inr h)
        · rintro (h | h | h)
          · exact Or.inr (Or.inl h)
          · exact Or.inl h
          · exact Or.inr (Or.inr h)
      by_cases h2 : seenHas seen2 c = true
      · rw [h2, hcc.mpr h2]
        simp only [if_true]
        exact ih seen1 seen2 acc hmem
      · rw [Bool.not_eq_true] at h2
        have h1 : seenHas seen1 c = false := by
          rw [← Bool.not_eq_true]
          intro hx
          rw [hcc] at hx
          rw [hx] at h2
          exact Bool.noConfusion h2
        rw [h1, h2]
        simp only [Bool.false_eq_true, if_false]
        by_cases huniq : 6 < uniqCount c
        · rw [if_pos huniq, if_pos huniq]
          by_cases hres : 0 < (b64 dep hash st c).results.length
          · rw [if_pos hres, if_pos hres]
            exact ih (c :: seen1) (c :: seen2) _ hmem2
          · rw [if_neg hres, if_neg hres]
            exact ih (c :: seen1) (c :: seen2) acc hmem2
        · rw [if_neg huniq, if_neg huniq]
          exact ih (c :: seen1) (c :: seen2) acc hmem2

theorem base64_results_go_drop_bad (dep : B64Deps) (hash : List Nat → String)
    (st : String) (bad : List Nat) (hbad : (b64 dep hash st bad).results = []) :
    ∀ (pre post seen : List (List Nat)) (acc : List B64Out),
      base64_results_go dep hash st (pre ++ bad :: post) seen acc =
        base64_results_go dep hash st (pre ++ post) seen acc := by
  intro pre
  induction pre with
  | nil =>
    intro post seen acc
    simp only [List.nil_append, base64_results_go]
    by_cases h1 : seenHas seen bad = true
    · rw [h1]
      simp only [if_true]
    · rw [Bool.not_eq_true] at h1
      rw [h1]
      simp only [Bool.false_eq_true, if_false]
      have hmem : ∀ x, seenHas (bad :: seen) x = true ↔
          (x = bad ∨ seenHas seen x = true) := by
        intro x
        rw [seenHas_cons]
        simp only [Bool.or_eq_true, decide_eq_true_eq]
        constructor
        · rintro (h | h)
          · exact Or.inl h.symm
          · exact Or.inr h
        · rintro (h | h)
          · exact Or.inl h.symm
          · exact Or.inr h
      by_cases huniq : 6 < uniqCount bad
      · rw [if_pos huniq, hbad]
        simp only [List.length_nil, Nat.lt_irrefl, if_false]
        exact base64_results_go_seen_equiv dep hash st bad hbad post (bad :: seen) seen acc hmem
      · rw [if_neg huniq]
        exact base64_results_go_seen_equiv dep hash st bad hbad post (bad :: seen) seen acc hmem
  | cons p pre2 ih =>
    intro post seen acc
    simp only [List.cons_append, base64_results_go]
    by_cases hp : seenHas seen p = true
    · rw [hp]
      simp only [if_true]
      exact ih post seen acc
    · rw [Bool.not_eq_true] at hp
      rw [hp]
      simp only [Bool.false_eq_true, if_false]
      by_cases huniq : 6 < uniqCount p
      · rw [if_pos huniq, if_pos huniq]
        by_cases hres : 0 < (b64 dep hash st p).results.length
        · rw [if_pos hres, if_pos hres]
          exact ih post (p :: seen) _
        · rw [if_neg hres, if_neg hres]
          exact ih post (p :: seen) acc
      · rw [if_neg huniq, if_neg huniq]
        exact ih post (p :: seen) acc

/-- C9: a malformed-encoding failure is recovered locally.  A base64
    candidate inside the length gates on which `binascii.a2b_base64`
    raises yields the empty/default `b64` output (empty results, empty
    tags, nothing extracted); an ascii-hex candidate on which
    `binascii.unhexlify` raises (after the odd-nibble truncation) yields
    the empty/default `unhexlify_ascii` output; and in both candidate
    loops, dropping such a failing candidate leaves the processing of
    every other candidate unchanged. -/
theorem c9_malformed_encoding_recovered (dep : B64Deps) (deph : HexDeps)
    (hash : List Nat → String) (st tag : String) :
    (∀ s, 16 ≤ s.length → s.length % 4 = 0 → a2b_base64 s = none →
      b64 dep hash st s = ⟨[], [], []⟩) ∧
    (∀ d, unhexlify (if d.length % 2 ≠ 0 then d.dropLast else d) = none →
      unhexlify_ascii deph hash d tag = (false, [], [])) ∧
    (∀ pre post bad, 16 ≤ bad.length → bad.length % 4 = 0 → a2b_base64 bad = none →
      base64_results_loop dep hash st (pre ++ bad :: post) =
        base64_results_loop dep hash st (pre ++ post)) ∧
    (∀ pre post bad,
      unhexlify (if bad.length % 2 ≠ 0 then bad.dropLast else bad) = none →
      hex_results_loop deph hash tag (pre ++ bad :: post) =
        hex_results_loop deph hash tag (pre ++ post)) := by
  have hb64 : ∀ s, 16 ≤ s.length → s.length % 4 = 0 → a2b_base64 s = none →
      b64 dep hash st s = ⟨[], [], []⟩ := by
    intro s h16 h4 hdec
    simp [b64, hdec, h16, h4]
  have hhex : ∀ d, unhexlify (if d.length % 2 ≠ 0 then d.dropLast else d) = none →
      unhexlify_ascii deph hash d tag = (false, [], []) := by
    intro d hdec
    simp only [unhexlify_ascii, hdec]
  refine ⟨hb64, hhex, ?_, ?_⟩
  · intro pre post bad h16 h4 hdec
    have hbad : (b64 dep hash st bad).results = [] := by
      rw [hb64 bad h16 h4 hdec]
    exact base64_results_go_drop_bad dep hash st bad hbad pre post [] []
  · intro pre post bad hdec
    have hbad := hhex bad hdec
    unfold hex_results_loop
    rw [List.foldl_append, List.foldl_append, List.foldl_cons]
    congr 1
    rw [hbad]
    simp

/-- Oracles for the C9 witness (base64 side). -/
def c9depB : B64Deps := ⟨fun _ => "data", fun _ => "data", fun _ => []⟩

/-- Oracles for the C9 witness (ascii-hex side). -/
def c9depH : HexDeps := ⟨fun _ => [], fun _ => []⟩

/-- A base64 candidate of length 24 (a multiple of 4) with a skipped pad
    character and 23 data characters, on which `a2b_base64` raises. -/
def c9bad : List Nat := strBytes "ABCDEFGHIJKL=NOPQRSTUVWX"

/-- An even-length hex candidate starting with two non-hex bytes, on
    which `unhexlify` raises. -/
def c9zz : List Nat := strBytes "ZZ" ++ hexlify (List.range 20)

/-- A well-formed base64 candidate processed around the failing one. -/
def c9good : List Nat := strBytes "ABCDEFGHIJKLMNOP"

/-- A well-formed hex candidate processed around the failing one. -/
def c9goodhex : List Nat := hexlify (List.range 20)

/-- Witness for C9 at concrete failing candidates in both pipelines. -/
theorem c9_malformed_encoding_recovered_witness :
    b64 c9depB (fun _ => "h") "text/plain" c9bad = ⟨[], [], []⟩ ∧
      unhexlify_ascii c9depH (fun _ => "h") c9zz "text/plain" = (false, [], []) ∧
      base64_results_loop c9depB (fun _ => "h") "text/plain" [c9good, c9bad, c9good] =
        base64_results_loop c9depB (fun _ => "h") "text/plain" [c9good, c9good] ∧
      hex_results_loop c9depH (fun _ => "h") "text/plain" [c9goodhex, c9zz] =
        hex_results_loop c9depH (fun _ => "h") "text/plain" [c9goodhex] := by
  have h := c9_malformed_encoding_recovered c9depB c9depH (fun _ => "h")
    "text/plain" "text/plain"
  exact ⟨h.1 c9bad (by decide) (by decide) (by decide),
    h.2.1 c9zz (by decide),
    h.2.2.1 [c9good] [c9good] c9bad (by decide) (by decide) (by decide),
    h.2.2.2 [c9goodhex] [] c9zz (by decide)⟩

/-- C3: when the base64 pipeline and the ascii-hex pipeline each persist
    the same decoded bytes `d`, putting both pipelines' extracted
    contents into the content-addressed artifact store yields exactly one
    stored artifact, keyed by the content hash of `d`: both call sites
    key their artifact by `hashlib.sha256` of the decoded content, so the
    second put finds its key present and is a no-op. -/
theorem c3_store_dedup_by_content_hash (hash : List Nat → String) (d : List Nat)
    (dep1 : B64Deps) (dep2 : HexDeps) (st tag : String) (s1 s2 : List Nat)
    (n1 n2 : String)
    (h1 : (b64 dep1 hash st s1).extracted = [(n1, d)])
    (h2 : (unhexlify_ascii dep2 hash s2 tag).2.2 = [(n2, d)]) :
    (((b64 dep1 hash st s1).extracted ++ (unhexlify_ascii dep2 hash s2 tag).2.2).map
        Prod.snd).foldl (storePut hash) [] = [(hash d, d)] := by
  rw [h1, h2]
  simp [storePut]

/-- Content persisted by both pipelines in the C3 witness: 510 bytes over
    25 distinct values. -/
def c3d : List Nat := (List.range 510).map (fun i => i % 25)

/-- The C3 witness base64 candidate: the canonical encoding of `c3d`. -/
def c3s : List Nat := b2a_base64 c3d

/-- The C3 witness hex candidate: the hex encoding of `c3d`. -/
def c3shex : List Nat := hexlify c3d

/-- Sniffer oracles for the C3 witness: an interesting MIME type, so the
    base64 pipeline persists the decoded bytes. -/
def c3depB : B64Deps := ⟨fun _ => "application/x-thing", fun _ => "data", fun _ => []⟩

/-- IOC and XOR oracles for the C3 witness hex pipeline. -/
def c3depH : HexDeps := ⟨fun _ => [], fun _ => []⟩

/-- Witness for C3: both pipelines persist the same 510 decoded bytes and
    the store ends with exactly one artifact under their common content
    hash. -/
theorem c3_store_dedup_by_content_hash_witness :
    (((b64 c3depB (fun _ => "cafebabe") "text/plain" c3s).extracted ++
        (unhexlify_ascii c3depH (fun _ => "cafebabe") c3shex "text/plain").2.2).map
        Prod.snd).foldl (storePut (fun _ => "cafebabe")) [] = [("cafebabe", c3d)] :=
  c3_store_dedup_by_content_hash (fun _ => "cafebabe") c3d c3depB c3depH "text/plain"
    "text/plain" c3s c3shex "cafebabe_b64_decoded" "cafebabe_asciihex_decoded"
    (by decide) (by decide)
